import Mathlib

/-!
Verification development for the `pycrumbs` repository: a command-line
utility that stores shell commands under meaningful names in a hierarchy.

The repository's only source file is `setup.py` (a packaging manifest);
the behavioural components (Store, Path Resolver, Template Renderer,
Command Executor) are modelled from the specification, faithful to its
words, as noted on each definition.
-/

namespace Pycrumbs

/-- The `setuptools.setup` keyword arguments, embedded from `src/setup.py`. -/
structure SetupArgs where
  name : String
  version : String
  author : String
  author_email : String
  description : String
  long_description : String
  long_description_content_type : String
  url : String
  scripts : List String
  install_requires : List String
  deriving Repr, DecidableEq

/-- The concrete argument record of the `setuptools.setup(...)` call in
`src/setup.py`, with `long_description` parameterised by the text read
from `README.md` (the file read at lines 3-4 of `setup.py`). -/
def setupArgs (readmeText : String) : SetupArgs :=
  { name := "pycrumbs"
    version := "0.0.1"
    author := "Blake Rain"
    author_email := "blake.rain@gmail.com"
    description := "PyCrumbs is a command-line utility for the shell, for storing commands under a meaningful name in a hierarchy"
    long_description := readmeText
    long_description_content_type := "text/markdown"
    url := "https://github.com/BlakeRain/pycrymbs"
    scripts := ["bin/pycrumbs"]
    install_requires := ["argcomplete", "jinja2", "Pyyaml"] }

/-- Embeds the whole of `src/setup.py` as a program over an abstract
file-reading effect: it opens and reads `README.md`; if that read fails
the exception propagates and `setuptools.setup` is never reached;
otherwise `setuptools.setup` is called once, with the arguments above. -/
def setupMain (readFile : String → Except String String) : Except String SetupArgs :=
  match readFile "README.md" with
  | .error e => .error e
  | .ok txt => .ok (setupArgs txt)

/-- Modelled from the spec: the error taxonomy of section 7 (the source
implementing it is absent from the repository).  `ioError` stands for a
reported I/O failure during `save` (section 7: "a failed save aborts the
mutating operation and reports the failure"). -/
inductive StoreError where
  | corruptStore : StoreError
  | duplicateName : StoreError
  | notFound : StoreError
  | ambiguousPath (candidates : List String) : StoreError
  | missingVariable (name : String) : StoreError
  | unresolvedTemplate : StoreError
  | ioError : StoreError
  deriving Repr, DecidableEq

/-- Modelled from the spec: the data model of section 3 (the source
implementing it is absent from the repository).  An `entry` is a leaf
holding a command template, an optional description and the ordered list
of declared variable names; `ns` is a namespace holding a mapping from
child name to child node, represented as an association list. -/
inductive Node where
  | entry (command : String) (description : Option String) (vars : List String) : Node
  | ns (children : List (String × Node)) : Node
  deriving Repr

/-- Modelled from the spec: a `Store` owns the root namespace (section 3);
we keep the root's child mapping. -/
structure Store where
  root : List (String × Node)

/-- Exact lookup of a child by name in a namespace's child mapping. -/
def lookupChild (children : List (String × Node)) (name : String) : Option Node :=
  match children with
  | [] => none
  | (n, c) :: rest => if n = name then some c else lookupChild rest name

/-- Prefix test on character sequences: `charsPre p s` holds when `p` is
an initial segment of `s`. -/
def charsPre : List Char → List Char → Bool
  | [], _ => true
  | _ :: _, [] => false
  | c :: cs, d :: ds => c = d && charsPre cs ds

/-- A name starts with the given segment (string prefix test, on the
strings' character data). -/
def strStarts (seg name : String) : Bool := charsPre seg.data name.data

/-- Modelled from the spec: one level of path resolution (section 4.2).
An exact name match resolves; otherwise the children whose names start
with the segment are the candidates: exactly one resolves (abbreviation
support), several fail with `AmbiguousPathError` listing the candidates,
none fails with `NotFoundError`. -/
def resolveSeg (children : List (String × Node)) (seg : String) :
    Except StoreError (String × Node) :=
  match lookupChild children seg with
  | some c => .ok (seg, c)
  | none =>
    match children.filter (fun p => strStarts seg p.1) with
    | [] => .error .notFound
    | [p] => .ok p
    | p :: q :: ps => .error (.ambiguousPath ((p :: q :: ps).map Prod.fst))

/-- Modelled from the spec: full path resolution over a namespace's
children (section 4.2); a segment remaining at a leaf entry is a
`NotFoundError`. -/
def resolveIn (path : List String) (children : List (String × Node)) :
    Except StoreError Node :=
  match path with
  | [] => .ok (.ns children)
  | [seg] =>
    match resolveSeg children seg with
    | .error e => .error e
    | .ok (_, c) => .ok c
  | seg :: r1 :: r2 =>
    match resolveSeg children seg with
    | .error e => .error e
    | .ok (_, .entry _ _ _) => .error .notFound
    | .ok (_, .ns sub) => resolveIn (r1 :: r2) sub

/-- Modelled from the spec: `Store` path resolution (section 4.2). -/
def Store.resolve (s : Store) (path : List String) : Except StoreError Node :=
  resolveIn path s.root

/-- Replaces the child bound to `name` (all occurrences) by `c`, keeping
the other children and the order. -/
def replaceChild (children : List (String × Node)) (name : String) (c : Node) :
    List (String × Node) :=
  match children with
  | [] => []
  | (n, x) :: rest =>
    if n = name then (name, c) :: replaceChild rest name c
    else (n, x) :: replaceChild rest name c

/-- Modelled from the spec: `add(path, entry)` over a namespace's children
(section 4.1).  Intermediate namespaces are created as needed; the leaf
name already existing at the path fails with `DuplicateNameError` (as does
an intermediate segment colliding with an existing entry, where no
namespace can be created); the empty path is a `NotFoundError`. -/
def addIn (path : List String) (children : List (String × Node)) (e : Node) :
    Except StoreError (List (String × Node)) :=
  match path with
  | [] => .error .notFound
  | [seg] =>
    match lookupChild children seg with
    | some _ => .error .duplicateName
    | none => .ok (children ++ [(seg, e)])
  | seg :: r1 :: r2 =>
    match lookupChild children seg with
    | some (.ns sub) =>
      (addIn (r1 :: r2) sub e).map (fun sub2 => replaceChild children seg (.ns sub2))
    | some (.entry _ _ _) => .error .duplicateName
    | none =>
      (addIn (r1 :: r2) [] e).map (fun sub2 => children ++ [(seg, .ns sub2)])

/-- Modelled from the spec: `Store.add` (section 4.1). -/
def Store.add (s : Store) (path : List String) (e : Node) : Except StoreError Store :=
  (addIn path s.root e).map Store.mk

/-- Modelled from the spec: `remove(path)` over a namespace's children
(section 4.1): the path is located with the resolver (exact or
unique-prefix match at each level) and the resolved child is removed;
a path that does not resolve fails with `NotFoundError`. -/
def removeIn (path : List String) (children : List (String × Node)) :
    Except StoreError (List (String × Node)) :=
  match path with
  | [] => .error .notFound
  | [seg] =>
    match resolveSeg children seg with
    | .error e => .error e
    | .ok (name, _) => .ok (children.filter (fun p => p.1 ≠ name))
  | seg :: r1 :: r2 =>
    match resolveSeg children seg with
    | .error e => .error e
    | .ok (_, .entry _ _ _) => .error .notFound
    | .ok (name, .ns sub) =>
      (removeIn (r1 :: r2) sub).map (fun sub2 => replaceChild children name (.ns sub2))

/-- Modelled from the spec: `Store.remove` (section 4.1). -/
def Store.remove (s : Store) (path : List String) : Except StoreError Store :=
  (removeIn path s.root).map Store.mk

/-- Along a non-trivial path, every intermediate segment either names a
namespace or is absent (never an existing entry): the well-formedness
under which the spec's phrase "the leaf name already exists at that path"
is meaningful. -/
def clearPath (path : List String) (children : List (String × Node)) : Bool :=
  match path with
  | [] => true
  | [_] => true
  | seg :: r1 :: r2 =>
    match lookupChild children seg with
    | some (.ns sub) => clearPath (r1 :: r2) sub
    | some (.entry _ _ _) => false
    | none => true

/-- The leaf name of `path` already exists at that path: every
intermediate segment names an existing namespace and the final segment
names an existing child there. -/
def leafExists (path : List String) (children : List (String × Node)) : Bool :=
  match path with
  | [] => false
  | [leaf] => (lookupChild children leaf).isSome
  | seg :: r1 :: r2 =>
    match lookupChild children seg with
    | some (.ns sub) => leafExists (r1 :: r2) sub
    | _ => false

/-- Every intermediate segment of `path` names a namespace and the final
segment is bound to the entry with fields `c`, `d`, `v`: the shape `add`
leaves behind. -/
def builtPath (path : List String) (c : String) (d : Option String)
    (v : List String) (children : List (String × Node)) : Bool :=
  match path with
  | [] => false
  | [leaf] =>
    match lookupChild children leaf with
    | some (.entry c' d' v') => c = c' ∧ d = d' ∧ v = v'
    | _ => false
  | seg :: r1 :: r2 =>
    match lookupChild children seg with
    | some (.ns sub) => builtPath (r1 :: r2) c d v sub
    | _ => false

/-- No child's name has the final segment of `path` as a prefix at the
namespace the intermediate segments lead to (trivially true where the
intermediate namespaces do not exist yet). -/
def leafSafe (path : List String) (children : List (String × Node)) : Bool :=
  match path with
  | [] => true
  | [leaf] => children.all (fun p => !(strStarts leaf p.1))
  | seg :: r1 :: r2 =>
    match lookupChild children seg with
    | some (.ns sub) => leafSafe (r1 :: r2) sub
    | _ => true

/-- Following a path where at every level exactly one child's name starts
with the given segment: the node the abbreviation rules designate, when
it exists. -/
def followUnique (path : List String) (children : List (String × Node)) : Option Node :=
  match path with
  | [] => some (.ns children)
  | [seg] =>
    match children.filter (fun p => strStarts seg p.1) with
    | [p] => some p.2
    | _ => none
  | seg :: r1 :: r2 =>
    match children.filter (fun p => strStarts seg p.1) with
    | [(_, .ns sub)] => followUnique (r1 :: r2) sub
    | _ => none

/-- The template marker's opening brace character. -/
def lbrace : Char := '\x7b'

/-- The template marker's closing brace character. -/
def rbrace : Char := '\x7d'

/-- A scanned template item: a literal character or a variable marker. -/
inductive TItem where
  | text (c : Char) : TItem
  | var (name : String) : TItem
  deriving Repr, DecidableEq

/-- Scanner state: at top level, after one opening brace, inside a
marker (accumulating the name), or after one closing brace inside a
marker. -/
inductive ScanMode where
  | top : ScanMode
  | sawOpen : ScanMode
  | inVar (acc : List Char) : ScanMode
  | sawClose (acc : List Char) : ScanMode

/-- Modelled from the spec: scanning a command template into literal
text and `\x7b\x7bname\x7d\x7d` variable markers (sections 4.3 and 8; the
templating source is absent from the repository).  A malformed template
(an unterminated or nested marker) scans to `none`. -/
def scanGo (mode : ScanMode) (cs : List Char) : Option (List TItem) :=
  match cs with
  | [] =>
    match mode with
    | .top => some []
    | _ => none
  | c :: rest =>
    match mode with
    | .top =>
      if c = lbrace then scanGo .sawOpen rest
      else (scanGo .top rest).map (fun ts => .text c :: ts)
    | .sawOpen =>
      if c = lbrace then scanGo (.inVar []) rest
      else (scanGo .top rest).map (fun ts => .text lbrace :: .text c :: ts)
    | .inVar acc =>
      if c = rbrace then scanGo (.sawClose acc) rest
      else if c = lbrace then none
      else scanGo (.inVar (acc ++ [c])) rest
    | .sawClose acc =>
      if c = rbrace then (scanGo .top rest).map (fun ts => .var (String.mk acc) :: ts)
      else none

/-- The variable names referenced by a scanned template. -/
def varNames (ts : List TItem) : List String :=
  ts.filterMap (fun t => match t with | .var n => some n | .text _ => none)

/-- Lookup in a variable environment (an association list of variable
name to string value). -/
def lookupStr (env : List (String × String)) (name : String) : Option String :=
  match env with
  | [] => none
  | (n, v) :: rest => if n = name then some v else lookupStr rest name

/-- Modelled from the spec: substituting an environment into the scanned
template (section 4.3).  A marker whose name is not bound in the
environment is an unexpanded marker, failing with
`UnresolvedTemplateError`. -/
def renderTokens (env : List (String × String)) :
    List TItem → Except StoreError (List Char)
  | [] => .ok []
  | .text c :: rest => (renderTokens env rest).map (fun out => c :: out)
  | .var n :: rest =>
    match lookupStr env n with
    | some v => (renderTokens env rest).map (fun out => v.data ++ out)
    | none => .error .unresolvedTemplate

/-- Modelled from the spec: template rendering (section 4.3).  First the
contract check: every declared variable must be bound or have a default,
an unbound one failing with `MissingVariableError`; then the template is
scanned and substituted against the bindings (which shadow the defaults),
any unexpanded or malformed marker failing with
`UnresolvedTemplateError`. -/
def render (command : String) (declared : List String)
    (bindings defaults : List (String × String)) : Except StoreError String :=
  match declared.find?
      (fun v => (lookupStr bindings v).isNone && (lookupStr defaults v).isNone) with
  | some v => .error (.missingVariable v)
  | none =>
    match scanGo .top command.data with
    | none => .error .unresolvedTemplate
    | some ts =>
      match renderTokens (bindings ++ defaults) ts with
      | .error e => .error e
      | .ok out => .ok (String.mk out)

/-- Modelled from the spec: the persisted YAML-compatible document
(section 6; the source is absent from the repository): a scalar string,
a list of strings (for the `variables` field), or a mapping of name to
sub-document. -/
inductive Doc where
  | str (s : String) : Doc
  | strs (xs : List String) : Doc
  | map (kvs : List (String × Doc)) : Doc
  deriving Repr

/-- Lookup of a key in a document mapping. -/
def lookupDoc (kvs : List (String × Doc)) (name : String) : Option Doc :=
  match kvs with
  | [] => none
  | (n, v) :: rest => if n = name then some v else lookupDoc rest name

mutual

/-- Modelled from the spec: serializing a node to the persisted schema
(section 6): a leaf becomes the mapping `\x7bcommand, description?,
variables?\x7d` (the optional fields omitted when absent or empty), a
namespace becomes the nested mapping of its children. -/
def saveNode : Node → Doc
  | .entry c d v =>
    .map ([("command", .str c)]
      ++ (match d with | some s => [("description", .str s)] | none => [])
      ++ (match v with | [] => [] | _ :: _ => [("variables", .strs v)]))
  | .ns children => .map (saveChildren children)

/-- Serializes a child mapping, name by name, in order. -/
def saveChildren : List (String × Node) → List (String × Doc)
  | [] => []
  | (n, c) :: rest => (n, saveNode c) :: saveChildren rest

end

mutual

/-- Modelled from the spec: parsing the structured document back into the
tree (sections 4.1 and 6), failing with `CorruptStoreError` on malformed
structure.  A mapping whose `command` key holds a string is a leaf (its
optional `description` string and `variables` string list are read, any
other shape being malformed); any other mapping is a namespace whose
entries are parsed recursively. -/
def loadNode : Doc → Except StoreError Node
  | .str _ => .error .corruptStore
  | .strs _ => .error .corruptStore
  | .map kvs =>
    match lookupDoc kvs "command" with
    | some (.str c) =>
      match lookupDoc kvs "description" with
      | some (.str s) =>
        match lookupDoc kvs "variables" with
        | some (.strs v) => .ok (.entry c (some s) v)
        | none => .ok (.entry c (some s) [])
        | some (.str _) => .error .corruptStore
        | some (.map _) => .error .corruptStore
      | none =>
        match lookupDoc kvs "variables" with
        | some (.strs v) => .ok (.entry c none v)
        | none => .ok (.entry c none [])
        | some (.str _) => .error .corruptStore
        | some (.map _) => .error .corruptStore
      | some (.strs _) => .error .corruptStore
      | some (.map _) => .error .corruptStore
    | some (.strs _) => (loadChildren kvs).map Node.ns
    | some (.map _) => (loadChildren kvs).map Node.ns
    | none => (loadChildren kvs).map Node.ns

/-- Parses a document mapping into a child mapping, name by name. -/
def loadChildren : List (String × Doc) → Except StoreError (List (String × Node))
  | [] => .ok []
  | (n, dc) :: rest =>
    match loadNode dc with
    | .error e => .error e
    | .ok c => (loadChildren rest).map (fun cs => (n, c) :: cs)

end

/-- Modelled from the spec: `save()` serializes the full tree (section
4.1); the root is the top-level mapping. -/
def Store.save (s : Store) : Doc := .map (saveChildren s.root)

/-- Modelled from the spec: `load` parses the structured document into
the tree, failing with `CorruptStoreError` on malformed structure
(section 4.1).  The top level must be a mapping (the root namespace). -/
def Store.load (doc : Doc) : Except StoreError Store :=
  match doc with
  | .str _ => .error .corruptStore
  | .strs _ => .error .corruptStore
  | .map kvs => (loadChildren kvs).map Store.mk

/-- Modelled from the spec: running a stored entry (sections 2 and 4.4;
the source is absent from the repository).  The path is resolved to an
entry, its template rendered against the given bindings, and the rendered
command executed as a child process — abstracted as `exec`, mapping the
command line to the child's exit code — whose exit code is propagated
unchanged as the tool's own exit code. -/
def runEntry (s : Store) (path : List String)
    (bindings defaults : List (String × String)) (exec : String → Nat) :
    Except StoreError Nat :=
  match s.resolve path with
  | .error e => .error e
  | .ok (.ns _) => .error .notFound
  | .ok (.entry c _ v) =>
    match render c v bindings defaults with
    | .error e => .error e
    | .ok cmd => .ok (exec cmd)

mutual

/-- Modelled from the spec: the character stream `save` writes for a
document (sections 4.1 and 6); a simple parenthesised rendering standing
for the YAML text. -/
def printDoc : Doc → List Char
  | .str s => '(' :: 's' :: ' ' :: s.data ++ [')']
  | .strs xs => '(' :: 'l' :: ' ' :: (xs.foldr (fun x acc => x.data ++ ' ' :: acc) []) ++ [')']
  | .map kvs => '(' :: 'm' :: ' ' :: printMap kvs ++ [')']

/-- Renders a document mapping, key by key. -/
def printMap : List (String × Doc) → List Char
  | [] => []
  | (n, dc) :: rest => n.data ++ ':' :: printDoc dc ++ ' ' :: printMap rest

end

/-- Modelled from the spec: the on-disk state `save` manipulates
(sections 4.1 and 5): the store file's contents and the temporary file's
contents. -/
structure Disk where
  main : List Char
  temp : List Char

/-- Modelled from the spec: where an interrupted `save` stops (section
4.1: write to a temp file, then rename it over the original; the rename
itself is atomic).  A crash can hit after `k` characters of the temp
file, after the temp write but before the rename, or after the rename
but before success is reported; otherwise the save completes. -/
inductive CrashPoint where
  | duringTemp (k : Nat) : CrashPoint
  | beforeRename : CrashPoint
  | afterRename : CrashPoint
  | completed : CrashPoint

/-- Modelled from the spec: `save()`'s write-to-temp-then-rename protocol
(section 4.1), with the outcome it reports (section 7: a failed save
aborts the mutating operation and reports the failure). -/
def saveAtomic (d : Disk) (content : List Char) :
    CrashPoint → Disk × Except StoreError Unit
  | .duringTemp k => (⟨d.main, content.take k⟩, .error .ioError)
  | .beforeRename => (⟨d.main, content⟩, .error .ioError)
  | .afterRename => (⟨content, []⟩, .error .ioError)
  | .completed => (⟨content, []⟩, .ok ())

/-- Modelled from the spec (section 8): the sibling entries
`deploy-staging` and `deploy-prod` of the abbreviation example. -/
def deployStore : Store :=
  Store.mk [("deploy-staging", .entry "make staging" none []),
            ("deploy-prod", .entry "make prod" none [])]

end Pycrumbs

namespace Pycrumbs

theorem except_map_eq_error {α β γ : Type} (f : α → β) (x : Except γ α) (e : γ) :
    x.map f = .error e ↔ x = .error e := by
  cases x <;> simp [Except.map]

theorem except_map_eq_ok {α β γ : Type} (f : α → β) (x : Except γ α) (b : β) :
    x.map f = .ok b ↔ ∃ a, x = .ok a ∧ f a = b := by
  cases x <;> simp [Except.map]

theorem lookupChild_append_self (children : List (String × Node)) (n : String) (x : Node)
    (h : lookupChild children n = none) :
    lookupChild (children ++ [(n, x)]) n = some x := by
  induction children with
  | nil => simp [lookupChild]
  | cons p rest ih =>
    rw [lookupChild] at h
    by_cases hp : p.1 = n
    · simp [hp] at h
    · obtain ⟨pn, pc⟩ := p
      simp only [hp, if_neg] at h
      simp only [List.cons_append, lookupChild]
      simp only at hp
      rw [if_neg hp]
      exact ih h

theorem lookupChild_replace_self (children : List (String × Node)) (n : String)
    (x y : Node) (h : lookupChild children n = some y) :
    lookupChild (replaceChild children n x) n = some x := by
  induction children with
  | nil => simp [lookupChild] at h
  | cons p rest ih =>
    obtain ⟨pn, pc⟩ := p
    rw [lookupChild] at h
    by_cases hp : pn = n
    · subst hp
      rw [replaceChild]
      simp [lookupChild]
    · simp only [hp, if_false] at h
      rw [replaceChild]
      simp only [hp, if_false]
      rw [lookupChild]
      simp only [hp, if_false]
      exact ih h

theorem clearPath_nil_children (path : List String) : clearPath path [] = true := by
  match path with
  | [] => rfl
  | [x] => rfl
  | x :: y :: rest => simp [clearPath, lookupChild]

theorem leafExists_nil_children (path : List String) : leafExists path [] = false := by
  match path with
  | [] => rfl
  | [x] => simp [leafExists, lookupChild]
  | x :: y :: rest => simp [leafExists, lookupChild]

theorem addIn_spec (path : List String) (c : String) (d : Option String)
    (v : List String) :
    ∀ children : List (String × Node), clearPath path children = true →
      (addIn path children (.entry c d v) = .error .duplicateName ↔
        leafExists path children = true) ∧
      (∀ children', addIn path children (.entry c d v) = .ok children' →
        builtPath path c d v children' = true) := by
  induction path with
  | nil =>
    intro children _
    constructor
    · simp [addIn, leafExists]
    · intro children' h
      simp [addIn] at h
  | cons seg rest ih =>
    intro children hclear
    match rest with
    | [] =>
      cases hlk : lookupChild children seg with
      | some x =>
        constructor
        · simp [addIn, hlk, leafExists]
        · intro children' h
          simp [addIn, hlk] at h
      | none =>
        constructor
        · simp [addIn, hlk, leafExists]
        · intro children' h
          simp only [addIn, hlk] at h
          cases h
          simp [builtPath, lookupChild_append_self children seg _ hlk]
    | r1 :: r2 =>
      cases hlk : lookupChild children seg with
      | some x =>
        cases x with
        | entry xc xd xv =>
          rw [clearPath, hlk] at hclear
          simp at hclear
        | ns sub =>
          rw [clearPath, hlk] at hclear
          obtain ⟨hiff, hok⟩ := ih sub hclear
          constructor
          · rw [leafExists, hlk]
            rw [addIn]
            simp only [hlk]
            rw [except_map_eq_error]
            exact hiff
          · intro children' h
            rw [addIn] at h
            simp only [hlk] at h
            rw [except_map_eq_ok] at h
            obtain ⟨sub2, hsub2, hrepl⟩ := h
            subst hrepl
            rw [builtPath, lookupChild_replace_self children seg _ _ hlk]
            exact hok sub2 hsub2
      | none =>
        obtain ⟨hiff, hok⟩ := ih [] (clearPath_nil_children _)
        constructor
        · rw [leafExists, hlk]
          rw [addIn]
          simp only [hlk]
          rw [except_map_eq_error]
          rw [hiff, leafExists_nil_children]
        · intro children' h
          rw [addIn] at h
          simp only [hlk] at h
          rw [except_map_eq_ok] at h
          obtain ⟨sub2, hsub2, happ⟩ := h
          subst happ
          rw [builtPath, lookupChild_append_self children seg _ hlk]
          exact hok sub2 hsub2

/-- `C8`: `Store.add(path, entry)` creates all missing intermediate
namespaces along the path (on success every intermediate segment names a
namespace and the leaf holds the added entry), and fails with
`DuplicateNameError` exactly when the leaf name already exists at that
path (stated under the well-formedness making "exists at that path"
meaningful: no intermediate segment collides with an existing entry). -/
theorem store_add_creates_intermediates_and_duplicate_iff (s : Store)
    (path : List String) (c : String) (d : Option String) (v : List String)
    (h : clearPath path s.root = true) :
    (s.add path (.entry c d v) = .error .duplicateName ↔
      leafExists path s.root = true) ∧
    (∀ s', s.add path (.entry c d v) = .ok s' →
      builtPath path c d v s'.root = true) := by
  obtain ⟨hiff, hok⟩ := addIn_spec path c d v s.root h
  constructor
  · rw [Store.add, except_map_eq_error]
    exact hiff
  · intro s' hs'
    rw [Store.add, except_map_eq_ok] at hs'
    obtain ⟨children', hc, hmk⟩ := hs'
    subst hmk
    exact hok children' hc

/-- Witness for `C8`: adding `deploy.web` to a store containing only the
namespace `deploy` with an entry `api` creates nothing spurious, builds
the leaf, and a second add of the same path is a duplicate. -/
theorem store_add_witness :
    clearPath ["deploy", "web"]
        (Store.mk [("deploy", .ns [("api", .entry "make api" none [])])]).root = true ∧
    ((Store.mk [("deploy", .ns [("api", .entry "make api" none [])])]).add
        ["deploy", "web"] (.entry "make web" none []) = .error .duplicateName ↔
      leafExists ["deploy", "web"]
        (Store.mk [("deploy", .ns [("api", .entry "make api" none [])])]).root = true) :=
  ⟨rfl,
    (store_add_creates_intermediates_and_duplicate_iff
      (Store.mk [("deploy", .ns [("api", .entry "make api" none [])])])
      ["deploy", "web"] "make web" none [] rfl).1⟩

theorem lookupChild_eq_none_forall (children : List (String × Node)) (n : String)
    (h : lookupChild children n = none) : ∀ p ∈ children, p.1 ≠ n := by
  induction children with
  | nil => intro p hp; simp at hp
  | cons q rest ih =>
    obtain ⟨qn, qc⟩ := q
    rw [lookupChild] at h
    by_cases hq : qn = n
    · simp [hq] at h
    · intro p hp
      rcases List.mem_cons.mp hp with hple | hpr
      · subst hple; exact hq
      · simp only [hq, if_false] at h
        exact ih h p hpr

theorem leafSafe_nil_children (path : List String) : leafSafe path [] = true := by
  match path with
  | [] => rfl
  | [x] => rfl
  | x :: y :: rest => simp [leafSafe, lookupChild]

theorem resolveSeg_exact (children : List (String × Node)) (seg : String) (c : Node)
    (h : lookupChild children seg = some c) : resolveSeg children seg = .ok (seg, c) := by
  rw [resolveSeg, h]

theorem addIn_remove_resolve (path : List String) (c : String) (d : Option String)
    (v : List String) :
    ∀ children : List (String × Node), leafSafe path children = true →
      ∀ children', addIn path children (.entry c d v) = .ok children' →
        ∃ children'', removeIn path children' = .ok children'' ∧
          resolveIn path children'' = .error .notFound := by
  induction path with
  | nil =>
    intro children _ children' h
    simp [addIn] at h
  | cons seg rest ih =>
    intro children hsafe children' h
    match rest with
    | [] =>
      cases hlk : lookupChild children seg with
      | some x => simp [addIn, hlk] at h
      | none =>
        simp only [addIn, hlk] at h
        cases h
        refine ⟨children.filter (fun p => p.1 ≠ seg), ?_, ?_⟩
        · rw [removeIn,
            resolveSeg_exact _ seg _ (lookupChild_append_self children seg _ hlk)]
          dsimp only
          rw [List.filter_append]
          simp
        · have hall : ∀ p ∈ children, p.1 ≠ seg := lookupChild_eq_none_forall children seg hlk
          rw [List.filter_eq_self.mpr (by intro a ha; simpa using hall a ha)]
          rw [leafSafe] at hsafe
          rw [resolveIn, resolveSeg, hlk]
          rw [List.filter_eq_nil_iff.mpr ?_]
          intro p hp
          have := List.all_eq_true.mp hsafe p hp
          simpa using this
    | r1 :: r2 =>
      cases hlk : lookupChild children seg with
      | some x =>
        cases x with
        | entry xc xd xv => simp [addIn, hlk] at h
        | ns sub =>
          rw [addIn] at h
          simp only [hlk] at h
          rw [except_map_eq_ok] at h
          obtain ⟨sub2, hsub2, hrepl⟩ := h
          subst hrepl
          rw [leafSafe, hlk] at hsafe
          obtain ⟨sub3, hrm, hres⟩ := ih sub hsafe sub2 hsub2
          refine ⟨replaceChild (replaceChild children seg (.ns sub2)) seg (.ns sub3), ?_, ?_⟩
          · rw [removeIn,
              resolveSeg_exact _ seg _ (lookupChild_replace_self children seg _ _ hlk)]
            dsimp only
            rw [hrm]
            rfl
          · rw [resolveIn,
              resolveSeg_exact _ seg _
                (lookupChild_replace_self _ seg _ _
                  (lookupChild_replace_self children seg _ _ hlk))]
            exact hres
      | none =>
        rw [addIn] at h
        simp only [hlk] at h
        rw [except_map_eq_ok] at h
        obtain ⟨sub2, hsub2, happ⟩ := h
        subst happ
        obtain ⟨sub3, hrm, hres⟩ := ih [] (leafSafe_nil_children _) sub2 hsub2
        refine ⟨replaceChild (children ++ [(seg, .ns sub2)]) seg (.ns sub3), ?_, ?_⟩
        · rw [removeIn,
            resolveSeg_exact _ seg _ (lookupChild_append_self children seg _ hlk)]
          dsimp only
          rw [hrm]
          rfl
        · rw [resolveIn,
            resolveSeg_exact _ seg _
              (lookupChild_replace_self _ seg _ _
                (lookupChild_append_self children seg _ hlk))]
          exact hres

/-- `C3` (amended): after `add(path, entry)` followed by `remove(path)`,
a subsequent resolution of that path fails with `NotFoundError`, provided
no child of the namespace the path leads into has the final segment as a
prefix of its name (otherwise the resolver's abbreviation rules may make
the removed path resolve to a sibling, or fail with `AmbiguousPathError`
instead). -/
theorem store_add_remove_not_found (s : Store) (path : List String)
    (c : String) (d : Option String) (v : List String)
    (hsafe : leafSafe path s.root = true)
    (s' : Store) (hadd : s.add path (.entry c d v) = .ok s') :
    ∃ s'', s'.remove path = .ok s'' ∧ s''.resolve path = .error .notFound := by
  rw [Store.add, except_map_eq_ok] at hadd
  obtain ⟨children', hc, hmk⟩ := hadd
  subst hmk
  obtain ⟨children'', hrm, hres⟩ := addIn_remove_resolve path c d v s.root hsafe children' hc
  refine ⟨Store.mk children'', ?_, hres⟩
  rw [Store.remove, hrm]
  rfl

/-- Witness for `C3` (amended) on an initially empty store and the
two-segment path `a.b`. -/
theorem store_add_remove_not_found_witness :
    ∃ s'', (Store.mk [("a", Node.ns [("b", Node.entry "c" none [])])]).remove ["a", "b"]
        = .ok s'' ∧ s''.resolve ["a", "b"] = .error .notFound :=
  store_add_remove_not_found (Store.mk []) ["a", "b"] "c" none [] rfl
    (Store.mk [("a", Node.ns [("b", Node.entry "c" none [])])]) rfl

/-- Counterexample to `C3` as stated: in a store holding the single entry
`ab`, the path `a` is valid for `add` (no child named `a` exists), yet
after adding and removing `a`, resolving `a` abbreviates to the surviving
sibling `ab` and succeeds rather than failing with `NotFoundError`. -/
theorem store_add_remove_not_found_counterexample :
    (Store.mk [("ab", Node.entry "x" none [])]).add ["a"] (Node.entry "y" none [])
      = .ok (Store.mk [("ab", Node.entry "x" none []), ("a", Node.entry "y" none [])]) ∧
    (Store.mk [("ab", Node.entry "x" none []), ("a", Node.entry "y" none [])]).remove ["a"]
      = .ok (Store.mk [("ab", Node.entry "x" none [])]) ∧
    (Store.mk [("ab", Node.entry "x" none [])]).resolve ["a"]
      = .ok (Node.entry "x" none []) ∧
    (Store.mk [("ab", Node.entry "x" none [])]).resolve ["a"] ≠ .error .notFound := by
  refine ⟨rfl, rfl, rfl, ?_⟩
  intro h
  rw [show (Store.mk [("ab", Node.entry "x" none [])]).resolve ["a"]
      = .ok (Node.entry "x" none []) from rfl] at h
  exact Except.noConfusion h

theorem charsPre_self (l : List Char) : charsPre l l = true := by
  induction l with
  | nil => rfl
  | cons c cs ih => simp [charsPre, ih]

theorem strStarts_self (s : String) : strStarts s s = true :=
  charsPre_self s.data

theorem lookupChild_mem (children : List (String × Node)) (n : String) (c : Node)
    (h : lookupChild children n = some c) : (n, c) ∈ children := by
  induction children with
  | nil => simp [lookupChild] at h
  | cons q rest ih =>
    obtain ⟨qn, qc⟩ := q
    by_cases hq : qn = n
    · subst hq
      have hqc : qc = c := by simpa [lookupChild] using h
      subst hqc
      exact List.mem_cons_self _ _
    · rw [lookupChild] at h
      simp only [hq, if_false] at h
      exact List.mem_cons_of_mem _ (ih h)

theorem resolveSeg_of_filter_singleton (children : List (String × Node)) (seg : String)
    (p : String × Node) (h : children.filter (fun x => strStarts seg x.1) = [p]) :
    resolveSeg children seg = .ok p := by
  cases hlk : lookupChild children seg with
  | some c =>
    have hmem : (seg, c) ∈ children.filter (fun x => strStarts seg x.1) := by
      rw [List.mem_filter]
      exact ⟨lookupChild_mem children seg c hlk, strStarts_self seg⟩
    rw [h, List.mem_singleton] at hmem
    rw [resolveSeg, hlk]
    dsimp only
    rw [hmem]
  | none =>
    rw [resolveSeg, hlk, h]

theorem followUnique_resolve (path : List String) :
    ∀ (children : List (String × Node)) (r : Node),
      followUnique path children = some r → resolveIn path children = .ok r := by
  induction path with
  | nil =>
    intro children r h
    rw [followUnique] at h
    cases h
    rfl
  | cons seg rest ih =>
    intro children r h
    match rest with
    | [] =>
      rw [followUnique] at h
      split at h
      next p heq =>
        have hp : p.2 = r := Option.some.inj h
        obtain ⟨pn, pc⟩ := p
        rw [resolveIn, resolveSeg_of_filter_singleton children seg (pn, pc) heq]
        exact congrArg Except.ok hp
      next => exact Option.noConfusion h
    | r1 :: r2 =>
      rw [followUnique] at h
      split at h
      next pn sub heq =>
        rw [resolveIn, resolveSeg_of_filter_singleton children seg (pn, .ns sub) heq]
        exact ih sub r h
      next => exact Option.noConfusion h

theorem resolveIn_ambiguous (children : List (String × Node)) (seg : String)
    (rest : List String) (p q : String × Node) (ps : List (String × Node))
    (hlk : lookupChild children seg = none)
    (hf : children.filter (fun x => strStarts seg x.1) = p :: q :: ps) :
    resolveIn (seg :: rest) children
      = .error (.ambiguousPath ((p :: q :: ps).map Prod.fst)) := by
  have hseg : resolveSeg children seg
      = .error (.ambiguousPath ((p :: q :: ps).map Prod.fst)) := by
    rw [resolveSeg, hlk, hf]
  match rest with
  | [] => rw [resolveIn, hseg]
  | r1 :: r2 => rw [resolveIn, hseg]

/-- `C4` (amended): path resolution supports unique-prefix abbreviation:
if at every level exactly one child's name starts with the given segment,
resolution succeeds with that child; if multiple children share the
prefix and none of them matches the segment exactly, resolution fails
with `AmbiguousPathError` (an exact match takes precedence over the
abbreviation rules).  With siblings `deploy-staging` and `deploy-prod`,
resolving `deploy` fails with `AmbiguousPathError` and `deploy-s`
resolves to `deploy-staging`. -/
theorem resolver_unique_ambiguous_deploy :
    (∀ (path : List String) (children : List (String × Node)) (r : Node),
        followUnique path children = some r → resolveIn path children = .ok r) ∧
    (∀ (children : List (String × Node)) (seg : String) (rest : List String)
        (p q : String × Node) (ps : List (String × Node)),
        lookupChild children seg = none →
        children.filter (fun x => strStarts seg x.1) = p :: q :: ps →
        resolveIn (seg :: rest) children
          = .error (.ambiguousPath ((p :: q :: ps).map Prod.fst))) ∧
    deployStore.resolve ["deploy"]
      = .error (.ambiguousPath ["deploy-staging", "deploy-prod"]) ∧
    deployStore.resolve ["deploy-s"] = .ok (.entry "make staging" none []) :=
  ⟨followUnique_resolve, resolveIn_ambiguous, rfl, rfl⟩

/-- Witness for `C4` (amended): the abbreviation success and the
ambiguity failure, each obtained from the theorem at a concrete store. -/
theorem resolver_unique_ambiguous_deploy_witness :
    resolveIn ["deploy-s"] deployStore.root = .ok (.entry "make staging" none []) ∧
    resolveIn ["deploy"] deployStore.root
      = .error (.ambiguousPath ["deploy-staging", "deploy-prod"]) :=
  ⟨resolver_unique_ambiguous_deploy.1 ["deploy-s"] deployStore.root
      (.entry "make staging" none []) rfl,
    resolver_unique_ambiguous_deploy.2.1 deployStore.root "deploy" []
      ("deploy-staging", .entry "make staging" none [])
      ("deploy-prod", .entry "make prod" none []) [] rfl rfl⟩

/-- Counterexample to `C4` as stated: in a store with children `a` and
`ab`, both names start with the segment `a` (the prefix is shared by
multiple children), yet resolving `a` succeeds through the exact match
instead of failing with `AmbiguousPathError`. -/
theorem resolver_ambiguous_counterexample :
    ((Store.mk [("a", Node.entry "ea" none []), ("ab", Node.entry "eb" none [])]).root.filter
        (fun p => strStarts "a" p.1)).length = 2 ∧
    (Store.mk [("a", Node.entry "ea" none []), ("ab", Node.entry "eb" none [])]).resolve ["a"]
      = .ok (Node.entry "ea" none []) ∧
    (Store.mk [("a", Node.entry "ea" none []), ("ab", Node.entry "eb" none [])]).resolve ["a"]
      ≠ .error (.ambiguousPath ["a", "ab"]) := by
  refine ⟨rfl, rfl, ?_⟩
  intro h
  rw [show (Store.mk [("a", Node.entry "ea" none []), ("ab", Node.entry "eb" none [])]).resolve
      ["a"] = .ok (Node.entry "ea" none []) from rfl] at h
  exact Except.noConfusion h

theorem varNames_cons_text (c : Char) (rest : List TItem) :
    varNames (.text c :: rest) = varNames rest := rfl

theorem varNames_cons_var (n : String) (rest : List TItem) :
    varNames (.var n :: rest) = n :: varNames rest := rfl

theorem renderTokens_no_missing (ts : List TItem) (env : List (String × String))
    (v : String) : renderTokens env ts ≠ .error (.missingVariable v) := by
  induction ts with
  | nil =>
    intro h
    exact Except.noConfusion h
  | cons t rest ih =>
    intro h
    cases t with
    | text c =>
      rw [renderTokens, except_map_eq_error] at h
      exact ih h
    | var n =>
      rw [renderTokens] at h
      cases hl : lookupStr env n with
      | some val =>
        rw [hl] at h
        have h' : (renderTokens env rest).map (fun out => val.data ++ out)
            = .error (.missingVariable v) := h
        rw [except_map_eq_error] at h'
        exact ih h'
      | none =>
        rw [hl] at h
        exact StoreError.noConfusion (Except.error.inj h)

theorem renderTokens_ok_of_bound (ts : List TItem) (env : List (String × String))
    (hall : ∀ n ∈ varNames ts, (lookupStr env n).isSome) :
    ∃ out, renderTokens env ts = .ok out := by
  induction ts with
  | nil => exact ⟨[], rfl⟩
  | cons t rest ih =>
    cases t with
    | text c =>
      obtain ⟨out, hout⟩ := ih (fun n hn => hall n (by rw [varNames_cons_text]; exact hn))
      exact ⟨c :: out, by rw [renderTokens, hout]; rfl⟩
    | var n =>
      have hn : (lookupStr env n).isSome :=
        hall n (by rw [varNames_cons_var]; exact List.mem_cons_self _ _)
      obtain ⟨val, hval⟩ := Option.isSome_iff_exists.mp hn
      obtain ⟨out, hout⟩ := ih (fun m hm =>
        hall m (by rw [varNames_cons_var]; exact List.mem_cons_of_mem _ hm))
      exact ⟨val.data ++ out, by rw [renderTokens, hval, hout]; rfl⟩

theorem renderTokens_congr (ts : List TItem) (env1 env2 : List (String × String))
    (hag : ∀ n ∈ varNames ts, lookupStr env1 n = lookupStr env2 n) :
    renderTokens env1 ts = renderTokens env2 ts := by
  induction ts with
  | nil => rfl
  | cons t rest ih =>
    cases t with
    | text c =>
      rw [renderTokens, renderTokens,
        ih (fun n hn => hag n (by rw [varNames_cons_text]; exact hn))]
    | var n =>
      rw [renderTokens, renderTokens,
        hag n (by rw [varNames_cons_var]; exact List.mem_cons_self _ _),
        ih (fun m hm => hag m (by rw [varNames_cons_var]; exact List.mem_cons_of_mem _ hm))]

theorem lookupStr_append_of_some (l1 l2 : List (String × String)) (n : String)
    (v : String) (h : lookupStr l1 n = some v) : lookupStr (l1 ++ l2) n = some v := by
  induction l1 with
  | nil => exact Option.noConfusion h
  | cons p rest ih =>
    obtain ⟨pn, pv⟩ := p
    rw [lookupStr] at h
    rw [List.cons_append, lookupStr]
    by_cases hp : pn = n
    · rwa [if_pos hp] at h ⊢
    · rw [if_neg hp] at h ⊢
      exact ih h

theorem lookupStr_append_of_none (l1 l2 : List (String × String)) (n : String)
    (h : lookupStr l1 n = none) : lookupStr (l1 ++ l2) n = lookupStr l2 n := by
  induction l1 with
  | nil => rfl
  | cons p rest ih =>
    obtain ⟨pn, pv⟩ := p
    rw [lookupStr] at h
    rw [List.cons_append, lookupStr]
    by_cases hp : pn = n
    · rw [if_pos hp] at h
      exact Option.noConfusion h
    · rw [if_neg hp] at h ⊢
      exact ih h

theorem lookupStr_append_single_ne (l : List (String × String)) (n x val : String)
    (hne : n ≠ x) : lookupStr (l ++ [(x, val)]) n = lookupStr l n := by
  cases hl : lookupStr l n with
  | some v => exact lookupStr_append_of_some l _ n v hl
  | none =>
    rw [lookupStr_append_of_none l _ n hl, lookupStr]
    rw [if_neg (fun hx => hne hx.symm), lookupStr]

theorem findq_congr (l : List String) (p q : String → Bool)
    (hag : ∀ v ∈ l, p v = q v) : l.find? p = l.find? q := by
  induction l with
  | nil => rfl
  | cons a rest ih =>
    rw [List.find?_cons, List.find?_cons, hag a (List.mem_cons_self _ _)]
    cases q a with
    | false => exact ih (fun v hv => hag v (List.mem_cons_of_mem _ hv))
    | true => rfl

theorem lookupStr_mid_single_ne (b d : List (String × String)) (n x val : String)
    (hne : n ≠ x) : lookupStr ((b ++ [(x, val)]) ++ d) n = lookupStr (b ++ d) n := by
  rw [List.append_assoc]
  cases hb : lookupStr b n with
  | some v =>
    rw [lookupStr_append_of_some b _ n v hb, lookupStr_append_of_some b d n v hb]
  | none =>
    rw [lookupStr_append_of_none b _ n hb, lookupStr_append_of_none b d n hb,
      List.singleton_append, lookupStr, if_neg (fun h => hne h.symm)]

/-- `C5`: rendering fails with `MissingVariableError` if and only if some
variable declared in the entry's `variables` list is neither bound nor
defaulted; when all declared variables are bound (and the template's
markers reference only declared variables, the data-model invariant of
spec section 3), substitution succeeds.  The template
`echo \x7b\x7bname\x7d\x7d` with binding `name=hello` renders to
`echo hello`, and with `name` unbound fails with `MissingVariableError`. -/
theorem render_missing_iff_succeeds :
    (∀ (cmd : String) (decl : List String) (b d : List (String × String)),
      ((∃ v, render cmd decl b d = .error (.missingVariable v)) ↔
        ∃ v ∈ decl, lookupStr b v = none ∧ lookupStr d v = none)) ∧
    (∀ (cmd : String) (decl : List String) (b d : List (String × String))
        (ts : List TItem),
      scanGo .top cmd.data = some ts →
      (∀ n ∈ varNames ts, n ∈ decl) →
      (∀ v ∈ decl, (lookupStr b v).isSome) →
      ∃ out, render cmd decl b d = .ok out) ∧
    render "echo \x7b\x7bname\x7d\x7d" ["name"] [("name", "hello")] []
      = .ok "echo hello" ∧
    render "echo \x7b\x7bname\x7d\x7d" ["name"] [] []
      = .error (.missingVariable "name") := by
  refine ⟨?_, ?_, rfl, rfl⟩
  · intro cmd decl b d
    constructor
    · rintro ⟨v, hv⟩
      rw [render] at hv
      cases hfind : decl.find?
          (fun v => (lookupStr b v).isNone && (lookupStr d v).isNone) with
      | some w =>
        have hp := List.find?_some hfind
        simp only [Bool.and_eq_true, Option.isNone_iff_eq_none] at hp
        exact ⟨w, List.mem_of_find?_eq_some hfind, hp.1, hp.2⟩
      | none =>
        exfalso
        rw [hfind] at hv
        dsimp only at hv
        cases hscan : scanGo .top cmd.data with
        | none =>
          rw [hscan] at hv
          exact StoreError.noConfusion (Except.error.inj hv)
        | some ts =>
          rw [hscan] at hv
          dsimp only at hv
          cases hrt : renderTokens (b ++ d) ts with
          | error e =>
            rw [hrt] at hv
            have he : e = .missingVariable v := Except.error.inj hv
            rw [he] at hrt
            exact renderTokens_no_missing ts (b ++ d) v hrt
          | ok out =>
            rw [hrt] at hv
            exact Except.noConfusion hv
    · rintro ⟨v, hvmem, hb, hd⟩
      cases hfind : decl.find?
          (fun v => (lookupStr b v).isNone && (lookupStr d v).isNone) with
      | none =>
        exfalso
        have hnone := List.find?_eq_none.mp hfind v hvmem
        simp [hb, hd] at hnone
      | some w =>
        exact ⟨w, by rw [render, hfind]⟩
  · intro cmd decl b d ts hscan hsub hbound
    have hfind : decl.find?
        (fun v => (lookupStr b v).isNone && (lookupStr d v).isNone) = none := by
      rw [List.find?_eq_none]
      intro v hv hcontra
      have hs := hbound v hv
      simp only [Bool.and_eq_true, Option.isNone_iff_eq_none] at hcontra
      rw [hcontra.1] at hs
      exact Bool.noConfusion hs
    obtain ⟨out, hout⟩ := renderTokens_ok_of_bound ts (b ++ d) (fun n hn => by
      obtain ⟨val, hval⟩ := Option.isSome_iff_exists.mp (hbound n (hsub n hn))
      rw [lookupStr_append_of_some b d n val hval]
      rfl)
    refine ⟨String.mk out, ?_⟩
    rw [render, hfind]
    dsimp only
    rw [hscan]
    dsimp only
    rw [hout]

/-- Witness for `C5` at the spec's example template and bindings. -/
theorem render_missing_iff_succeeds_witness :
    ∃ out, render "echo \x7b\x7bname\x7d\x7d" ["name"] [("name", "hello")] []
      = .ok out :=
  render_missing_iff_succeeds.2.1 "echo \x7b\x7bname\x7d\x7d" ["name"]
    [("name", "hello")] []
    [.text 'e', .text 'c', .text 'h', .text 'o', .text ' ', .var "name"]
    rfl (by decide) (by decide)

/-- `C6`: adding a binding for a variable name that the template does not
reference (and that, by the data-model invariant of spec section 3, is
therefore not declared) does not change the rendering result and raises
no error. -/
theorem render_ignores_extra_bindings
    (cmd : String) (decl : List String) (b d : List (String × String))
    (x val : String) (ts : List TItem)
    (hscan : scanGo .top cmd.data = some ts)
    (hx : x ∉ varNames ts) (hxd : x ∉ decl) :
    render cmd decl (b ++ [(x, val)]) d = render cmd decl b d := by
  rw [render, render]
  rw [findq_congr decl _ _ (fun v hv => by
    rw [lookupStr_append_single_ne b v x val (fun h => hxd (h ▸ hv))])]
  cases hfind : decl.find?
      (fun v => (lookupStr b v).isNone && (lookupStr d v).isNone) with
  | some w => rfl
  | none =>
    rw [hscan]
    dsimp only
    rw [renderTokens_congr ts ((b ++ [(x, val)]) ++ d) (b ++ d) (fun n hn =>
      lookupStr_mid_single_ne b d n x val (fun h => hx (h ▸ hn)))]

theorem nodeInd (P : Node → Prop)
    (hentry : ∀ c d v, P (Node.entry c d v))
    (hns : ∀ cs, (∀ x ∈ cs, P x.2) → P (Node.ns cs)) : ∀ t, P t
  | Node.entry c d v => hentry c d v
  | Node.ns cs => hns cs (fun x hx => nodeInd P hentry hns x.2)
decreasing_by
  have h1 := List.sizeOf_lt_of_mem hx
  obtain ⟨xn, xc⟩ := x
  simp at h1 ⊢
  omega

theorem lookupDoc_saveChildren (cs : List (String × Node)) (n : String) :
    lookupDoc (saveChildren cs) n = Option.map saveNode (lookupChild cs n) := by
  induction cs with
  | nil => rfl
  | cons p rest ih =>
    obtain ⟨pn, pc⟩ := p
    rw [saveChildren, lookupDoc, lookupChild]
    by_cases hp : pn = n
    · rw [if_pos hp, if_pos hp]
      rfl
    · rw [if_neg hp, if_neg hp, ih]

theorem saveNode_is_map (t : Node) : ∃ kvs, saveNode t = .map kvs := by
  cases t with
  | entry c d v =>
    refine ⟨[("command", .str c)]
      ++ (match d with | some s => [("description", Doc.str s)] | none => [])
      ++ (match v with | [] => [] | _ :: _ => [("variables", Doc.strs v)]), ?_⟩
    simp [saveNode]
  | ns cs => exact ⟨saveChildren cs, by simp [saveNode]⟩

theorem loadChildren_saveChildren (cs : List (String × Node))
    (hall : ∀ x ∈ cs, loadNode (saveNode x.2) = .ok x.2) :
    loadChildren (saveChildren cs) = .ok cs := by
  induction cs with
  | nil => rfl
  | cons p rest ih =>
    obtain ⟨pn, pc⟩ := p
    rw [saveChildren, loadChildren, hall (pn, pc) (List.mem_cons_self _ _)]
    dsimp only
    rw [ih (fun x hx => hall x (List.mem_cons_of_mem _ hx))]
    rfl

theorem loadNode_saveNode : ∀ t, loadNode (saveNode t) = .ok t := by
  refine nodeInd _ ?_ ?_
  · intro c d v
    cases d with
    | none =>
      cases v with
      | nil => simp [saveNode, loadNode, lookupDoc]
      | cons v1 vr => simp [saveNode, loadNode, lookupDoc]
    | some s =>
      cases v with
      | nil => simp [saveNode, loadNode, lookupDoc]
      | cons v1 vr => simp [saveNode, loadNode, lookupDoc]
  · intro cs ih
    have hload : loadNode (.map (saveChildren cs))
        = (loadChildren (saveChildren cs)).map Node.ns := by
      rw [loadNode]
      cases hlk : lookupChild cs "command" with
      | none =>
        rw [lookupDoc_saveChildren, hlk, Option.map_none']
      | some c =>
        obtain ⟨kvs2, hkvs2⟩ := saveNode_is_map c
        rw [lookupDoc_saveChildren, hlk, Option.map_some', hkvs2]
    have hsv : saveNode (.ns cs) = .map (saveChildren cs) := by simp [saveNode]
    rw [hsv, hload, loadChildren_saveChildren cs ih]
    rfl

/-- `C2`: for every `Store`, saving it and then loading from the saved
document yields exactly the tree that was saved: `Store.load` is a left
inverse of `Store.save`. -/
theorem store_load_save (s : Store) : Store.load (Store.save s) = .ok s := by
  simp only [Store.save, Store.load]
  rw [loadChildren_saveChildren s.root (fun x _ => loadNode_saveNode x.2)]
  rfl

/-- `C7`: running a stored entry propagates the child process's exit code
as the tool's own exit code; in particular, a stored command whose child
exits with code 3 causes the tool to exit with code 3. -/
theorem run_propagates_exit_code (s : Store) (path : List String)
    (b d : List (String × String)) (exec : String → Nat)
    (c : String) (dd : Option String) (v : List String) (cmd : String)
    (hres : s.resolve path = .ok (.entry c dd v))
    (hrend : render c v b d = .ok cmd) :
    runEntry s path b d exec = .ok (exec cmd) ∧
    (exec cmd = 3 → runEntry s path b d exec = .ok 3) := by
  have h1 : runEntry s path b d exec = .ok (exec cmd) := by
    rw [runEntry, hres]
    dsimp only
    rw [hrend]
  exact ⟨h1, fun h3 => by rw [h1, h3]⟩

/-- Witness for `C7`: a stored command whose child exits with code 3
makes the tool exit with code 3. -/
theorem run_propagates_exit_code_witness :
    runEntry (Store.mk [("t", Node.entry "true" none [])]) ["t"] [] []
      (fun _ => 3) = .ok 3 :=
  (run_propagates_exit_code (Store.mk [("t", Node.entry "true" none [])]) ["t"]
    [] [] (fun _ => 3) "true" none [] "true" rfl rfl).2 rfl

/-- `C9`: whatever point an interrupted `save` reaches, the on-disk store
file holds either the complete old serialized tree or the complete new
one, never a partial write; a completed save reports success and leaves
the new tree; an interrupted save reports the failure (aborting the
mutating operation). -/
theorem save_atomic_old_or_new (oldS newS : Store) (temp0 : List Char)
    (cp : CrashPoint) :
    ((saveAtomic ⟨printDoc oldS.save, temp0⟩ (printDoc newS.save) cp).1.main
        = printDoc oldS.save ∨
      (saveAtomic ⟨printDoc oldS.save, temp0⟩ (printDoc newS.save) cp).1.main
        = printDoc newS.save) ∧
    ((saveAtomic ⟨printDoc oldS.save, temp0⟩ (printDoc newS.save) cp).2 = .ok () →
      (saveAtomic ⟨printDoc oldS.save, temp0⟩ (printDoc newS.save) cp).1.main
        = printDoc newS.save) ∧
    (cp ≠ .completed →
      (saveAtomic ⟨printDoc oldS.save, temp0⟩ (printDoc newS.save) cp).2
        = .error .ioError) := by
  cases cp with
  | duringTemp k => exact ⟨Or.inl rfl, fun h => Except.noConfusion h, fun _ => rfl⟩
  | beforeRename => exact ⟨Or.inl rfl, fun h => Except.noConfusion h, fun _ => rfl⟩
  | afterRename => exact ⟨Or.inr rfl, fun h => Except.noConfusion h, fun _ => rfl⟩
  | completed => exact ⟨Or.inr rfl, fun _ => rfl, fun hne => absurd rfl hne⟩

/-- Witness for `C9`: a completed save leaves the new serialized tree,
and one interrupted before the rename reports an error. -/
theorem save_atomic_old_or_new_witness :
    (saveAtomic ⟨printDoc (Store.mk []).save, []⟩
        (printDoc (Store.mk [("a", Node.entry "x" none [])]).save) .completed).1.main
      = printDoc (Store.mk [("a", Node.entry "x" none [])]).save ∧
    (saveAtomic ⟨printDoc (Store.mk []).save, []⟩
        (printDoc (Store.mk [("a", Node.entry "x" none [])]).save) .beforeRename).2
      = .error .ioError :=
  ⟨(save_atomic_old_or_new (Store.mk []) (Store.mk [("a", Node.entry "x" none [])])
      [] .completed).2.1 rfl,
    (save_atomic_old_or_new (Store.mk []) (Store.mk [("a", Node.entry "x" none [])])
      [] .beforeRename).2.2 (fun h => CrashPoint.noConfusion h)⟩

/-- Witness for `C6`: an unreferenced extra binding leaves the example
rendering unchanged. -/
theorem render_ignores_extra_bindings_witness :
    render "echo \x7b\x7bname\x7d\x7d" ["name"]
        ([("name", "hello")] ++ [("extra", "zz")]) []
      = render "echo \x7b\x7bname\x7d\x7d" ["name"] [("name", "hello")] [] :=
  render_ignores_extra_bindings "echo \x7b\x7bname\x7d\x7d" ["name"]
    [("name", "hello")] [] "extra" "zz"
    [.text 'e', .text 'c', .text 'h', .text 'o', .text ' ', .var "name"]
    rfl (by decide) (by decide)

end Pycrumbs

namespace Pycrumbs

/-- `C1`: the packaging manifest declares exactly three runtime
dependencies — a CLI-completion helper (`argcomplete`), a templating
engine (`jinja2`) and a YAML parser (`Pyyaml`) — and installs exactly one
script entry point (`bin/pycrumbs`). -/
theorem setup_three_deps_one_script :
    (setupArgs "").install_requires = ["argcomplete", "jinja2", "Pyyaml"] ∧
    (setupArgs "").install_requires.length = 3 ∧
    (setupArgs "").scripts = ["bin/pycrumbs"] ∧
    (setupArgs "").scripts.length = 1 ∧
    ∀ txt, (setupArgs txt).install_requires = (setupArgs "").install_requires ∧
      (setupArgs txt).scripts = (setupArgs "").scripts :=
  ⟨rfl, rfl, rfl, rfl, fun _ => ⟨rfl, rfl⟩⟩

/-- `C10`: if reading `README.md` succeeds, `setuptools.setup` is called
with `long_description` equal to the full file contents; if the read
fails, the exception propagates and `setuptools.setup` is never called. -/
theorem setupMain_reads_readme (readFile : String → Except String String) :
    (∀ txt, readFile "README.md" = .ok txt →
      setupMain readFile = .ok (setupArgs txt) ∧
      (setupArgs txt).long_description = txt) ∧
    (∀ e, readFile "README.md" = .error e →
      setupMain readFile = .error e) := by
  constructor
  · intro txt h
    refine ⟨?_, rfl⟩
    simp [setupMain, h]
  · intro e h
    simp [setupMain, h]

/-- Witness for `C10` at a concrete file system. -/
theorem setupMain_reads_readme_witness :
    setupMain (fun _ => .ok "hello") = .ok (setupArgs "hello") :=
  ((setupMain_reads_readme (fun _ => .ok "hello")).1 "hello" rfl).1

end Pycrumbs
